import Mathlib

/-!
Verification development for the Student Record Management console app.

The program keeps an in-memory list of student records, loads it from a
JSON file at startup and rewrites the file after every mutation.  We embed
the record type, the (de)serialization pair `to_dict`/`from_dict`, and the
store operations `_load_data`, `_save_data`, `_find_student`,
`add_student`, `update_student`, `delete_student` as pure Lean functions
over explicit store states.  Interactive input loops are modelled as
one-shot calls: a value the program would re-prompt for is a rejected
input, and for `update_student` a rejected field keeps its prior value
(the user's blank after the re-prompt).
-/

/-- One student record: `Student.__init__` fields.  Python's unbounded
`int` year becomes `Int`; `float` marks become `ℚ` (no arithmetic is ever
performed on marks, only exact comparisons with 0 and 100). -/
structure Student where
  student_id : String
  name : String
  branch : String
  year : Int
  marks : ℚ
  deriving DecidableEq

/-- The JSON object written for one student: the dictionary built by
`Student.to_dict`, with the concrete key set
`Student_id`, `Name`, `Branch`, `Year`, `Marks`. -/
structure StudentDict where
  Student_id : String
  Name : String
  Branch : String
  Year : Int
  Marks : ℚ
  deriving DecidableEq

/-- `Student.to_dict`: converts a record to its serialized dictionary. -/
def Student.to_dict (s : Student) : StudentDict :=
  { Student_id := s.student_id
    Name := s.name
    Branch := s.branch
    Year := s.year
    Marks := s.marks }

/-- `Student.from_dict`: rebuilds a record from a dictionary; copies each
key's value verbatim, with no validation. -/
def Student.from_dict (d : StudentDict) : Student :=
  { student_id := d.Student_id
    name := d.Name
    branch := d.Branch
    year := d.Year
    marks := d.Marks }

/-- What `_load_data` can observe about the backing file: the file is
absent, it fails to parse (`json.JSONDecodeError`, or any other exception
such as a missing key in `from_dict`), or it parses to a list of
dictionaries. -/
inductive FileState where
  | absent
  | corrupt
  | ok (data : List StudentDict)
  deriving DecidableEq

/-- `StudentManager._load_data`, acting on the current `students` list.
Absent file: the list is left as it is (the `else` branch assigns
nothing).  Parse failure: the list is set to `[]`.  Successful parse:
the list becomes `from_dict` of each entry, in file order. -/
def load_data (students : List Student) : FileState → List Student
  | .absent => students
  | .corrupt => []
  | .ok data => data.map Student.from_dict

/-- `StudentManager.__init__`: `students` starts as `[]`, then
`_load_data` runs. -/
def init_students (fs : FileState) : List Student :=
  load_data [] fs

/-- `StudentManager._save_data`: serializes the whole list, in order,
via `to_dict`. -/
def save_data (students : List Student) : List StudentDict :=
  students.map Student.to_dict

/-- `StudentManager._find_student`: linear scan returning the first
record whose id equals `student_id`, else `none`. -/
def find_student : List Student → String → Option Student
  | [], _ => none
  | s :: rest, student_id =>
      if s.student_id == student_id then some s else find_student rest student_id

/-- The validation failures of `add_student`'s input loops. -/
inductive ValidationError where
  | emptyId
  | duplicateId
  | badYear
  | badMarks
  deriving DecidableEq

/-- `StudentManager.add_student` as a one-shot call on given (stripped)
inputs: empty id and duplicate id are rejected in the id loop, `year ≤ 0`
in the year loop, marks outside `[0, 100]` in the marks loop; otherwise
the new record is appended at the end (and the store persisted). -/
def add_student (students : List Student) (student_id name branch : String)
    (year : Int) (marks : ℚ) : Except ValidationError (List Student) :=
  if student_id = "" then .error .emptyId
  else if (find_student students student_id).isSome then .error .duplicateId
  else if year ≤ 0 then .error .badYear
  else if ¬ (0 ≤ marks ∧ marks ≤ 100) then .error .badMarks
  else .ok (students ++ [{ student_id := student_id, name := name,
                           branch := branch, year := year, marks := marks }])

/-- The four inputs of one `update_student` interaction; `none` is a
blank (keep current value). -/
structure UpdateInput where
  new_name : Option String
  new_branch : Option String
  new_year : Option Int
  new_marks : Option ℚ
  deriving DecidableEq

/-- The in-place mutation `update_student` performs on the found record:
a supplied name or branch is assigned unconditionally; a supplied year is
assigned only when `0 < year`, a supplied marks value only when it lies
in `[0, 100]`; a rejected or blank field keeps the prior value.  The id
is never assigned. -/
def apply_update (s : Student) (u : UpdateInput) : Student :=
  let s1 := match u.new_name with
    | some n => { s with name := n }
    | none => s
  let s2 := match u.new_branch with
    | some b => { s1 with branch := b }
    | none => s1
  let s3 := match u.new_year with
    | some y => if y ≤ 0 then s2 else { s2 with year := y }
    | none => s2
  match u.new_marks with
    | some m => if 0 ≤ m ∧ m ≤ 100 then { s3 with marks := m } else s3
    | none => s3

/-- Mutating through the reference returned by `_find_student` updates
the first record whose id matches, leaving every other record in place. -/
def update_first : List Student → String → UpdateInput → List Student
  | [], _, _ => []
  | s :: rest, student_id, u =>
      if s.student_id == student_id then apply_update s u :: rest
      else s :: update_first rest student_id u

/-- `StudentManager.update_student`: if no record has the id, report
not-found and change nothing; otherwise mutate the first matching record
in place (and persist). -/
def update_student (students : List Student) (student_id : String)
    (u : UpdateInput) : Except Unit (List Student) :=
  match find_student students student_id with
  | none => .error ()
  | some _ => .ok (update_first students student_id u)

/-- The list comprehension in `delete_student`:
`[s for s in self.students if s.student_id != student_id]`. -/
def delete_result (students : List Student) (student_id : String) : List Student :=
  students.filter (fun s => s.student_id != student_id)

/-- `StudentManager.delete_student`: the store always becomes the
filtered list; success is reported exactly when the length shrank,
otherwise not-found (and the store was unchanged, the filter having
removed nothing). -/
def delete_student (students : List Student) (student_id : String) :
    Except Unit (List Student) :=
  if (delete_result students student_id).length < students.length then
    .ok (delete_result students student_id)
  else .error ()

/-- The store invariant claimed by the spec: no two records share an id. -/
def uniqueIds (students : List Student) : Prop :=
  (students.map Student.student_id).Nodup

instance (students : List Student) : Decidable (uniqueIds students) := by
  unfold uniqueIds; infer_instance

/-- The field constraints `add_student` enforces: non-empty id, positive
year, marks in `[0, 100]`. -/
def wellFormed (s : Student) : Prop :=
  s.student_id ≠ "" ∧ 0 < s.year ∧ 0 ≤ s.marks ∧ s.marks ≤ 100

instance (s : Student) : Decidable (wellFormed s) := by
  unfold wellFormed; infer_instance

/-- Every record of the store is well-formed. -/
def wfStore (students : List Student) : Prop :=
  ∀ s ∈ students, wellFormed s

instance (students : List Student) : Decidable (wfStore students) := by
  unfold wfStore; infer_instance

/-! ## Helper lemmas -/

theorem find_student_eq_none (students : List Student) (sid : String) :
    find_student students sid = none ↔ ∀ s ∈ students, s.student_id ≠ sid := by
  induction students with
  | nil => simp [find_student]
  | cons t rest ih =>
    by_cases ht : t.student_id = sid
    · simp [find_student, ht]
    · simp [find_student, ht, ih]

theorem find_student_isSome (students : List Student) (sid : String) :
    (find_student students sid).isSome = true ↔ ∃ s ∈ students, s.student_id = sid := by
  induction students with
  | nil => simp [find_student]
  | cons t rest ih =>
    by_cases ht : t.student_id = sid
    · simp only [find_student, ht, beq_self_eq_true, if_true, Option.isSome_some, true_iff]
      exact ⟨t, by simp, ht⟩
    · simp [find_student, ht, ih]

theorem find_student_some (students : List Student) (sid : String) (s : Student)
    (h : find_student students sid = some s) :
    s.student_id = sid ∧
    ∃ l1 l2, students = l1 ++ s :: l2 ∧ ∀ t ∈ l1, t.student_id ≠ sid := by
  induction students with
  | nil => simp [find_student] at h
  | cons t rest ih =>
    by_cases ht : t.student_id = sid
    · simp only [find_student, ht, beq_self_eq_true, if_true, Option.some.injEq] at h
      subst h
      exact ⟨ht, [], rest, rfl, by simp⟩
    · simp only [find_student, beq_iff_eq, ht, if_false] at h
      obtain ⟨hs, l1, l2, heq, hl1⟩ := ih h
      refine ⟨hs, t :: l1, l2, by simp [heq], ?_⟩
      intro x hx
      rcases List.mem_cons.mp hx with rfl | hx
      · exact ht
      · exact hl1 x hx

theorem apply_update_student_id (s : Student) (u : UpdateInput) :
    (apply_update s u).student_id = s.student_id := by
  rcases u with ⟨n, b, y, m⟩
  cases n <;> cases b <;> cases y <;> cases m <;>
    simp only [apply_update] <;> split_ifs <;> rfl

theorem update_first_map_id (students : List Student) (sid : String) (u : UpdateInput) :
    (update_first students sid u).map Student.student_id =
      students.map Student.student_id := by
  induction students with
  | nil => rfl
  | cons t rest ih =>
    by_cases ht : t.student_id = sid
    · simp [update_first, ht, apply_update_student_id]
    · simp [update_first, ht, ih]

theorem update_first_length (students : List Student) (sid : String) (u : UpdateInput) :
    (update_first students sid u).length = students.length := by
  have h := congrArg List.length (update_first_map_id students sid u)
  simpa using h

theorem update_first_of_not_mem (students : List Student) (sid : String)
    (u : UpdateInput) (h : ∀ t ∈ students, t.student_id ≠ sid) :
    update_first students sid u = students := by
  induction students with
  | nil => rfl
  | cons t rest ih =>
    have ht : t.student_id ≠ sid := h t (by simp)
    simp [update_first, ht, ih (fun x hx => h x (by simp [hx]))]

theorem update_first_append (l1 : List Student) (s : Student) (l2 : List Student)
    (sid : String) (u : UpdateInput) (hl1 : ∀ t ∈ l1, t.student_id ≠ sid)
    (hs : s.student_id = sid) :
    update_first (l1 ++ s :: l2) sid u = l1 ++ apply_update s u :: l2 := by
  induction l1 with
  | nil => simp [update_first, hs]
  | cons t rest ih =>
    have ht : t.student_id ≠ sid := hl1 t (by simp)
    have ih2 := ih (fun x hx => hl1 x (by simp [hx]))
    simp [update_first, ht, ih2]

theorem apply_update_eq (s : Student) (n b : Option String) (y : Option Int)
    (m : Option ℚ) :
    apply_update s ⟨n, b, y, m⟩ =
      { student_id := s.student_id
        name := n.getD s.name
        branch := b.getD s.branch
        year := match y with
          | some v => if v ≤ 0 then s.year else v
          | none => s.year
        marks := match m with
          | some v => if 0 ≤ v ∧ v ≤ 100 then v else s.marks
          | none => s.marks } := by
  cases n <;> cases b <;> cases y <;> cases m <;>
    simp only [apply_update, Option.getD] <;> split_ifs <;> rfl

theorem apply_update_wellFormed (s : Student) (u : UpdateInput)
    (h : wellFormed s) : wellFormed (apply_update s u) := by
  obtain ⟨h1, h2, h3, h4⟩ := h
  rcases u with ⟨n, b, y, m⟩
  rw [apply_update_eq]
  refine ⟨h1, ?_, ?_⟩
  · cases y with
    | none => exact h2
    | some v =>
      dsimp only
      split_ifs with hv
      · exact h2
      · omega
  · cases m with
    | none => exact ⟨h3, h4⟩
    | some v =>
      dsimp only
      split_ifs with hv
      · exact hv
      · exact ⟨h3, h4⟩

theorem update_first_wfStore (students : List Student) (sid : String)
    (u : UpdateInput) (h : wfStore students) :
    wfStore (update_first students sid u) := by
  induction students with
  | nil => intro s hs; simp [update_first] at hs
  | cons t rest ih =>
    intro s hs
    by_cases ht : t.student_id = sid
    · simp only [update_first, ht, beq_self_eq_true, if_true] at hs
      rcases List.mem_cons.mp hs with rfl | hs
      · exact apply_update_wellFormed t u (h t (by simp))
      · exact h s (by simp [hs])
    · rw [update_first, if_neg (by simpa using ht)] at hs
      rcases List.mem_cons.mp hs with rfl | hs
      · exact h s (by simp)
      · exact ih (fun x hx => h x (by simp [hx])) s hs

theorem delete_result_sublist (students : List Student) (sid : String) :
    (delete_result students sid).Sublist students :=
  List.filter_sublist students

theorem mem_delete_result (students : List Student) (sid : String) (s : Student) :
    s ∈ delete_result students sid ↔ s ∈ students ∧ s.student_id ≠ sid := by
  simp [delete_result, List.mem_filter]

theorem delete_result_of_not_mem (students : List Student) (sid : String)
    (h : ∀ s ∈ students, s.student_id ≠ sid) :
    delete_result students sid = students := by
  rw [delete_result, List.filter_eq_self]
  intro s hs
  simpa using h s hs

theorem delete_result_length_of_mem (students : List Student) (sid : String)
    (hu : uniqueIds students) (h : ∃ s ∈ students, s.student_id = sid) :
    (delete_result students sid).length + 1 = students.length := by
  induction students with
  | nil => simp at h
  | cons t rest ih =>
    rw [uniqueIds, List.map_cons, List.nodup_cons] at hu
    by_cases ht : t.student_id = sid
    · have hrest : ∀ x ∈ rest, x.student_id ≠ sid := by
        intro x hx hxid
        apply hu.1
        rw [ht, ← hxid]
        exact List.mem_map_of_mem Student.student_id hx
      have h2 : delete_result rest sid = rest := delete_result_of_not_mem rest sid hrest
      have h3 : delete_result (t :: rest) sid = delete_result rest sid := by
        simp [delete_result, List.filter_cons, ht]
      simp [h3, h2]
    · obtain ⟨s, hs, hsid⟩ := h
      rcases List.mem_cons.mp hs with rfl | hs
      · exact absurd hsid ht
      · have ihr := ih hu.2 ⟨s, hs, hsid⟩
        have h3 : delete_result (t :: rest) sid = t :: delete_result rest sid := by
          simp [delete_result, List.filter_cons, ht]
        rw [h3, List.length_cons, List.length_cons]
        omega

/-! ## Claims -/

/-- **C1** (as stated, refuted): "For every reachable store state and every
operation (load, add, update, delete), the resulting store has unique
student ids" is false: the empty store is reachable (it is the initial
state), and loading a parseable file whose two entries share the id `"a"`
produces a store with two records of the same id — `_load_data` performs
no uniqueness check. -/
theorem c1_counterexample :
    ¬ uniqueIds (load_data []
      (.ok [⟨"a", "x", "cs", 1, 50⟩, ⟨"a", "y", "ee", 2, 60⟩])) := by
  decide

/-- **C1** (amended): on a store with unique ids, `add_student`,
`update_student` and `delete_student` preserve uniqueness of ids, and
`load_data` preserves it when the file is absent (store untouched) or
corrupt (store emptied); after a successful parse the store has unique ids
only if the parsed records themselves do — load checks nothing. -/
theorem c1_operations_preserve_unique_ids (students : List Student)
    (h : uniqueIds students) :
    (∀ sid n b y m l, add_student students sid n b y m = .ok l → uniqueIds l) ∧
    (∀ sid u l, update_student students sid u = .ok l → uniqueIds l) ∧
    (∀ sid l, delete_student students sid = .ok l → uniqueIds l) ∧
    uniqueIds (load_data students .absent) ∧
    uniqueIds (load_data students .corrupt) ∧
    (∀ data, uniqueIds (data.map Student.from_dict) →
      uniqueIds (load_data students (.ok data))) := by
  refine ⟨?_, ?_, ?_, h, by simp [load_data, uniqueIds], fun data hd => hd⟩
  · intro sid n b y m l hok
    unfold add_student at hok
    split_ifs at hok with h1 h2 h3 h4
    obtain rfl : students ++ [(⟨sid, n, b, y, m⟩ : Student)] = l := by
      simpa using hok
    have hnot : ∀ s ∈ students, s.student_id ≠ sid := by
      intro s hs hsid
      exact h2 ((find_student_isSome students sid).mpr ⟨s, hs, hsid⟩)
    rw [uniqueIds, List.map_append]
    rw [List.nodup_append]
    refine ⟨h, by simp, ?_⟩
    intro x hx
    obtain ⟨s, hs, rfl⟩ := List.mem_map.mp hx
    simpa using fun hxid => hnot s hs hxid
  · intro sid u l hok
    unfold update_student at hok
    cases hfind : find_student students sid with
    | none => rw [hfind] at hok; cases hok
    | some s0 =>
      rw [hfind] at hok
      obtain rfl : update_first students sid u = l := by simpa using hok
      rw [uniqueIds, update_first_map_id]
      exact h
  · intro sid l hok
    unfold delete_student at hok
    split_ifs at hok
    obtain rfl : delete_result students sid = l := by simpa using hok
    exact ((delete_result_sublist students sid).map Student.student_id).nodup h

/-- Witness for C1: a concrete one-record store keeps unique ids across an
absent-file load. -/
theorem c1_witness : uniqueIds (load_data [⟨"a", "x", "cs", 1, 50⟩] .absent) :=
  (c1_operations_preserve_unique_ids [⟨"a", "x", "cs", 1, 50⟩]
    (by decide)).2.2.2.1

/-- **C2** (as stated, refuted): on a store holding two records with id
`"a"`, `delete_student "a"` removes both of them — the length shrinks by
two, not "exactly one record (the first match)". -/
theorem c2_counterexample :
    delete_student [⟨"a", "x", "cs", 1, 50⟩, ⟨"a", "y", "ee", 2, 60⟩] "a" =
      .ok ([] : List Student) ∧
    ¬ (([] : List Student).length + 1 =
        ([⟨"a", "x", "cs", 1, 50⟩, ⟨"a", "y", "ee", 2, 60⟩] : List Student).length) :=
  ⟨rfl, by decide⟩

/-- **C2** (amended): `delete_student` removes every record matching the
id.  On a store with unique ids that contains the id, this removes
exactly one record and the length shrinks by exactly one; if no record
has the id, it reports not-found and the store is unchanged (the filter
removed nothing). -/
theorem c2_delete_spec (students : List Student) (sid : String) :
    (uniqueIds students → (∃ s ∈ students, s.student_id = sid) →
      delete_student students sid = .ok (delete_result students sid) ∧
      (delete_result students sid).length + 1 = students.length) ∧
    ((∀ s ∈ students, s.student_id ≠ sid) →
      delete_student students sid = .error () ∧
      delete_result students sid = students) := by
  constructor
  · intro hu hex
    have hlen := delete_result_length_of_mem students sid hu hex
    refine ⟨?_, hlen⟩
    unfold delete_student
    rw [if_pos (by omega)]
  · intro hnone
    have heq := delete_result_of_not_mem students sid hnone
    refine ⟨?_, heq⟩
    unfold delete_student
    rw [if_neg (by rw [heq]; omega)]

/-- Witness for C2: deleting the present id `"a"` from a concrete
one-record store succeeds and empties it; deleting the absent id `"b"`
reports not-found. -/
theorem c2_witness :
    delete_student [⟨"a", "x", "cs", 1, 50⟩] "a" = .ok [] ∧
    delete_student [⟨"a", "x", "cs", 1, 50⟩] "b" = .error () := by
  constructor
  · exact ((c2_delete_spec [⟨"a", "x", "cs", 1, 50⟩] "a").1 (by decide)
      ⟨⟨"a", "x", "cs", 1, 50⟩, by simp, rfl⟩).1
  · exact ((c2_delete_spec [⟨"a", "x", "cs", 1, 50⟩] "b").2 (by decide)).1

/-- **C3**: `add_student` fails exactly when the id is empty, the id is
already present, the year is ≤ 0, or the marks lie outside `[0, 100]`;
otherwise it appends the new record at the end of the store.  The bounds
are inclusive, so marks 0 and 100 are accepted. -/
theorem c3_add_student_spec (students : List Student) (sid n b : String)
    (y : Int) (m : ℚ) :
    (add_student students sid n b y m =
        .ok (students ++ [(⟨sid, n, b, y, m⟩ : Student)]) ↔
      (sid ≠ "" ∧ (∀ s ∈ students, s.student_id ≠ sid) ∧
        0 < y ∧ 0 ≤ m ∧ m ≤ 100)) ∧
    ((∃ e, add_student students sid n b y m = .error e) ↔
      (sid = "" ∨ (∃ s ∈ students, s.student_id = sid) ∨
        y ≤ 0 ∨ m < 0 ∨ 100 < m)) := by
  unfold add_student
  split_ifs with h1 h2 h3 h4
  · constructor
    · constructor
      · intro hok; cases hok
      · rintro ⟨hne, -⟩; exact absurd h1 hne
    · constructor
      · intro _; exact Or.inl h1
      · intro _; exact ⟨.emptyId, rfl⟩
  · obtain ⟨s0, hs0, hs0id⟩ := (find_student_isSome students sid).mp h2
    constructor
    · constructor
      · intro hok; cases hok
      · rintro ⟨-, hall, -⟩; exact absurd hs0id (hall s0 hs0)
    · constructor
      · intro _; exact Or.inr (Or.inl ⟨s0, hs0, hs0id⟩)
      · intro _; exact ⟨.duplicateId, rfl⟩
  · constructor
    · constructor
      · intro hok; cases hok
      · rintro ⟨-, -, hy, -⟩; omega
    · constructor
      · intro _; exact Or.inr (Or.inr (Or.inl h3))
      · intro _; exact ⟨.badYear, rfl⟩
  · have h4m : 0 ≤ m ∧ m ≤ 100 := h4
    have hall : ∀ s ∈ students, s.student_id ≠ sid := by
      intro s hs hsid
      exact h2 ((find_student_isSome students sid).mpr ⟨s, hs, hsid⟩)
    constructor
    · constructor
      · intro _; exact ⟨h1, hall, by omega, h4m.1, h4m.2⟩
      · intro _; rfl
    · constructor
      · rintro ⟨e, he⟩; cases he
      · intro hcond
        rcases hcond with hc | hc | hc | hc | hc
        · exact absurd hc h1
        · obtain ⟨s0, hs0, hs0id⟩ := hc
          exact absurd hs0id (hall s0 hs0)
        · omega
        · exact absurd h4m.1 (not_le.mpr hc)
        · exact absurd h4m.2 (not_le.mpr hc)
  · have hm : m < 0 ∨ 100 < m := by
      rcases not_and_or.mp h4 with hm | hm
      · exact Or.inl (lt_of_not_le hm)
      · exact Or.inr (lt_of_not_le hm)
    constructor
    · constructor
      · intro hok; cases hok
      · rintro ⟨-, -, -, hm1, hm2⟩
        rcases hm with hm | hm
        · exact absurd hm1 (not_le.mpr hm)
        · exact absurd hm2 (not_le.mpr hm)
    · constructor
      · intro _
        rcases hm with hm | hm
        · exact Or.inr (Or.inr (Or.inr (Or.inl hm)))
        · exact Or.inr (Or.inr (Or.inr (Or.inr hm)))
      · intro _; exact ⟨.badMarks, rfl⟩

/-- Witness for C3: on the empty store, adds with the boundary marks 0
and 100 both succeed and append the record. -/
theorem c3_witness :
    add_student [] "a" "x" "cs" 1 0 = .ok [(⟨"a", "x", "cs", 1, 0⟩ : Student)] ∧
    add_student [] "a" "x" "cs" 1 100 =
      .ok [(⟨"a", "x", "cs", 1, 100⟩ : Student)] := by
  constructor
  · exact (c3_add_student_spec [] "a" "x" "cs" 1 0).1.mpr
      ⟨by decide, by simp, by decide, by norm_num, by norm_num⟩
  · exact (c3_add_student_spec [] "a" "x" "cs" 1 100).1.mpr
      ⟨by decide, by simp, by decide, by norm_num, by norm_num⟩

/-- **C4**: rewriting the file (`_save_data`) and reading it back
(`_load_data`) reproduces the same record sequence, in the same order
with the same fields, because `from_dict` after `to_dict` is the identity
on every record. -/
theorem c4_save_load_round_trip (prior students : List Student) :
    load_data prior (.ok (save_data students)) = students ∧
    ∀ s : Student, Student.from_dict (Student.to_dict s) = s := by
  have hid : ∀ s : Student, Student.from_dict (Student.to_dict s) = s :=
    fun s => rfl
  refine ⟨?_, hid⟩
  show (students.map Student.to_dict).map Student.from_dict = students
  rw [List.map_map]
  have hcomp : Student.from_dict ∘ Student.to_dict = id := funext hid
  rw [hcomp, List.map_id]

/-- **C5**: `update_student` on an absent id reports not-found and changes
nothing; on a present id it rewrites only the first matching record.  In
that rewrite a blank field keeps its prior value; a supplied year or
marks value is re-validated per `add_student`'s rules before assignment
(`0 < year`, `0 ≤ marks ≤ 100`), and a supplied out-of-range value
behaves exactly like a blank: it changes neither that field nor any
other field. -/
theorem c5_update_field_semantics (students : List Student) (sid : String)
    (u : UpdateInput) :
    ((∀ s ∈ students, s.student_id ≠ sid) →
      update_student students sid u = .error ()) ∧
    ((∃ s ∈ students, s.student_id = sid) →
      update_student students sid u = .ok (update_first students sid u)) ∧
    (∀ s : Student,
      (u.new_name = none → (apply_update s u).name = s.name) ∧
      (u.new_branch = none → (apply_update s u).branch = s.branch) ∧
      (u.new_year = none → (apply_update s u).year = s.year) ∧
      (u.new_marks = none → (apply_update s u).marks = s.marks) ∧
      (∀ y, u.new_year = some y → y ≤ 0 →
        apply_update s u = apply_update s
          { new_name := u.new_name, new_branch := u.new_branch,
            new_year := none, new_marks := u.new_marks }) ∧
      (∀ m, u.new_marks = some m → (m < 0 ∨ 100 < m) →
        apply_update s u = apply_update s
          { new_name := u.new_name, new_branch := u.new_branch,
            new_year := u.new_year, new_marks := none }) ∧
      (∀ y, u.new_year = some y → 0 < y → (apply_update s u).year = y) ∧
      (∀ m, u.new_marks = some m → 0 ≤ m → m ≤ 100 →
        (apply_update s u).marks = m)) := by
  refine ⟨?_, ?_, ?_⟩
  · intro hnone
    unfold update_student
    rw [(find_student_eq_none students sid).mpr hnone]
  · intro hex
    cases hfind : find_student students sid with
    | none =>
      obtain ⟨s0, hs0, hs0id⟩ := hex
      exact absurd hs0id ((find_student_eq_none students sid).mp hfind s0 hs0)
    | some s0 =>
      unfold update_student
      rw [hfind]
  · intro s
    rcases u with ⟨n, b, y, m⟩
    refine ⟨?_, ?_, ?_, ?_, ?_, ?_, ?_, ?_⟩
    · rintro rfl; simp [apply_update_eq]
    · rintro rfl; simp [apply_update_eq]
    · rintro rfl; simp [apply_update_eq]
    · rintro rfl; simp [apply_update_eq]
    · rintro y0 rfl hle
      simp [apply_update_eq, hle]
    · rintro m0 rfl hm
      have hnot : ¬ (0 ≤ m0 ∧ m0 ≤ 100) := by
        rcases hm with hm | hm
        · rintro ⟨h1, -⟩; exact absurd h1 (not_le.mpr hm)
        · rintro ⟨-, h2⟩; exact absurd h2 (not_le.mpr hm)
      simp [apply_update_eq, hnot]
    · rintro y0 rfl hpos
      rw [apply_update_eq]
      dsimp only
      rw [if_neg (by omega)]
    · rintro m0 rfl hm1 hm2
      rw [apply_update_eq]
      dsimp only
      rw [if_pos ⟨hm1, hm2⟩]

/-- Witness for C5: on a concrete one-record store, updating an absent id
fails; a fully blank update keeps the name, and a supplied out-of-range
marks value (200) behaves like a blank update. -/
theorem c5_witness :
    update_student [⟨"a", "x", "cs", 1, 50⟩] "b" ⟨none, none, none, none⟩ =
      .error () ∧
    (apply_update ⟨"a", "x", "cs", 1, 50⟩ ⟨none, none, none, none⟩).name = "x" ∧
    apply_update ⟨"a", "x", "cs", 1, 50⟩ ⟨none, none, none, some 200⟩ =
      apply_update ⟨"a", "x", "cs", 1, 50⟩ ⟨none, none, none, none⟩ := by
  refine ⟨?_, ?_, ?_⟩
  · exact (c5_update_field_semantics [⟨"a", "x", "cs", 1, 50⟩] "b"
      ⟨none, none, none, none⟩).1 (by decide)
  · exact ((c5_update_field_semantics [⟨"a", "x", "cs", 1, 50⟩] "b"
      ⟨none, none, none, none⟩).2.2 ⟨"a", "x", "cs", 1, 50⟩).1 rfl
  · exact ((c5_update_field_semantics [⟨"a", "x", "cs", 1, 50⟩] "a"
      ⟨none, none, none, some 200⟩).2.2 ⟨"a", "x", "cs", 1, 50⟩).2.2.2.2.2.1
      200 rfl (by norm_num)

/-- **C6**: `_find_student` is a linear scan: when it returns a record,
that record matches the id and is the first match (everything before it
in store order does not match); it returns `none` exactly when no record
in the store has the id. -/
theorem c6_find_first_match (students : List Student) (sid : String) :
    (∀ s, find_student students sid = some s →
      s.student_id = sid ∧
      ∃ l1 l2, students = l1 ++ s :: l2 ∧ ∀ t ∈ l1, t.student_id ≠ sid) ∧
    (find_student students sid = none ↔ ∀ s ∈ students, s.student_id ≠ sid) :=
  ⟨fun s h => find_student_some students sid s h,
   find_student_eq_none students sid⟩

/-- Witness for C6: on a concrete store, looking up an absent id returns
`none`, and a found record's id matches the query. -/
theorem c6_witness :
    find_student [⟨"a", "x", "cs", 1, 50⟩] "b" = none ∧
    (⟨"a", "x", "cs", 1, 50⟩ : Student).student_id = "a" :=
  ⟨(c6_find_first_match [⟨"a", "x", "cs", 1, 50⟩] "b").2.mpr (by decide),
   ((c6_find_first_match [⟨"a", "x", "cs", 1, 50⟩] "a").1
      ⟨"a", "x", "cs", 1, 50⟩ rfl).1⟩

/-- **C7**: `_load_data` is total (never crashes): an absent file leaves
the freshly initialised store empty, a file that fails to parse reports
the error and empties the store, and a parsed file makes the store
exactly the parsed record sequence. -/
theorem c7_load_total (prior : List Student) (data : List StudentDict) :
    init_students .absent = [] ∧
    load_data prior .corrupt = [] ∧
    load_data prior (.ok data) = data.map Student.from_dict :=
  ⟨rfl, rfl, rfl⟩

/-- **C8** (implicit): `delete_student` filters the store, so after a
delete no record with the given id remains — it removes all matches, not
only the first — the remaining records keep their relative order (the
result is a sublist of the store), a record survives exactly when it was
in the store and does not match, and a successful delete returns exactly
that filtered store. -/
theorem c8_delete_removes_all (students : List Student) (sid : String) :
    (∀ s ∈ delete_result students sid, s.student_id ≠ sid) ∧
    (delete_result students sid).Sublist students ∧
    (∀ s, s ∈ delete_result students sid ↔
      s ∈ students ∧ s.student_id ≠ sid) ∧
    (∀ l, delete_student students sid = .ok l →
      l = delete_result students sid) := by
  refine ⟨?_, delete_result_sublist students sid,
    fun s => mem_delete_result students sid s, ?_⟩
  · intro s hs
    exact ((mem_delete_result students sid s).mp hs).2
  · intro l hok
    unfold delete_student at hok
    split_ifs at hok
    cases hok
    rfl

/-- Witness for C8: in a concrete two-record store, the non-matching
record survives the delete of id `"a"` and its id differs from `"a"`. -/
theorem c8_witness :
    (⟨"b", "y", "ee", 2, 60⟩ : Student).student_id ≠ "a" :=
  (c8_delete_removes_all [⟨"a", "x", "cs", 1, 50⟩, ⟨"b", "y", "ee", 2, 60⟩]
    "a").1 ⟨"b", "y", "ee", 2, 60⟩ (by decide)

/-- **C9** (implicit): `update_student` mutates one found record in
place, so the store's length is unchanged, the sequence of ids (hence
the order of records) is unchanged, no record's id changes, and when the
store splits as `l1 ++ s :: l2` with `s` the first match, exactly `s` is
rewritten and every other record is untouched; with no match at all the
store is completely unchanged. -/
theorem c9_update_frame (students : List Student) (sid : String)
    (u : UpdateInput) :
    (update_first students sid u).length = students.length ∧
    (update_first students sid u).map Student.student_id =
      students.map Student.student_id ∧
    (∀ s : Student, (apply_update s u).student_id = s.student_id) ∧
    (∀ l1 s l2, students = l1 ++ s :: l2 → (∀ t ∈ l1, t.student_id ≠ sid) →
      s.student_id = sid →
      update_first students sid u = l1 ++ apply_update s u :: l2) ∧
    ((∀ t ∈ students, t.student_id ≠ sid) →
      update_first students sid u = students) := by
  refine ⟨update_first_length students sid u,
    update_first_map_id students sid u,
    fun s => apply_update_student_id s u, ?_, ?_⟩
  · intro l1 s l2 heq h1 hs
    subst heq
    exact update_first_append l1 s l2 sid u h1 hs
  · exact update_first_of_not_mem students sid u

/-- Witness for C9: a concrete name update keeps the store length at 1,
and a store whose only record does not match is left unchanged. -/
theorem c9_witness :
    (update_first [⟨"a", "x", "cs", 1, 50⟩] "a"
      ⟨some "z", none, none, none⟩).length = 1 ∧
    update_first [⟨"b", "y", "ee", 2, 60⟩] "a" ⟨some "z", none, none, none⟩ =
      [⟨"b", "y", "ee", 2, 60⟩] :=
  ⟨(c9_update_frame [⟨"a", "x", "cs", 1, 50⟩] "a"
      ⟨some "z", none, none, none⟩).1,
   (c9_update_frame [⟨"b", "y", "ee", 2, 60⟩] "a"
      ⟨some "z", none, none, none⟩).2.2.2.2 (by decide)⟩

/-- **C10** (implicit): `add_student` and `apply_update` only ever write
validated field values, so a store whose records all satisfy the
constraints (non-empty id, positive year, marks in `[0, 100]`) still does
after a successful add, update or delete.  `_load_data` validates
nothing: it maps a parsed entry with an empty id, year 0 and marks 200
into the store verbatim, so loading does not establish the property. -/
theorem c10_wf_preservation (students : List Student) (h : wfStore students) :
    (∀ sid n b y m l, add_student students sid n b y m = .ok l → wfStore l) ∧
    (∀ sid u l, update_student students sid u = .ok l → wfStore l) ∧
    (∀ sid l, delete_student students sid = .ok l → wfStore l) ∧
    (load_data students (.ok [⟨"", "x", "cs", 0, 200⟩]) =
        [(⟨"", "x", "cs", 0, 200⟩ : Student)] ∧
      ¬ wfStore (load_data students (.ok [⟨"", "x", "cs", 0, 200⟩]))) := by
  refine ⟨?_, ?_, ?_, rfl, ?_⟩
  · intro sid n b y m l hok
    unfold add_student at hok
    split_ifs at hok with h1 h2 h3 h4
    obtain rfl : students ++ [(⟨sid, n, b, y, m⟩ : Student)] = l := by
      simpa using hok
    intro s hs
    rcases List.mem_append.mp hs with hs | hs
    · exact h s hs
    · obtain rfl : s = ⟨sid, n, b, y, m⟩ := by simpa using hs
      refine ⟨h1, ?_, h4.1, h4.2⟩
      show (0 : Int) < y
      omega
  · intro sid u l hok
    unfold update_student at hok
    cases hfind : find_student students sid with
    | none => rw [hfind] at hok; cases hok
    | some s0 =>
      rw [hfind] at hok
      obtain rfl : update_first students sid u = l := by simpa using hok
      exact update_first_wfStore students sid u h
  · intro sid l hok
    unfold delete_student at hok
    split_ifs at hok
    obtain rfl : delete_result students sid = l := by simpa using hok
    intro s hs
    exact h s ((mem_delete_result students sid s).mp hs).1
  · intro hwf
    have := hwf ⟨"", "x", "cs", 0, 200⟩ (by simp [load_data, Student.from_dict])
    simp [wellFormed] at this

/-- Witness for C10: starting from the empty (vacuously well-formed)
store, a concrete valid add yields a well-formed store. -/
theorem c10_witness : wfStore [(⟨"a", "x", "cs", 1, 50⟩ : Student)] :=
  (c10_wf_preservation [] (by decide)).1 "a" "x" "cs" 1 50
    [(⟨"a", "x", "cs", 1, 50⟩ : Student)] (by rfl)
